import Mathlib

/-!
Verification of the reference-rewrite and safe-rename engine of
`notion-export-cleaner` against its natural-language specification.

The program's text processing works on UTF-8 byte offsets, so file contents
are embedded as lists of bytes (`Str := List Nat`).  Pure Rust functions from
`src/content_replacing.rs`, `src/path_replacing.rs`, `src/notion_object.rs`
and `src/utils.rs` are translated into executable Lean definitions; Rust
panics (slice-range panics, failed `unwrap`s) are modelled by `Option`/sum
results, and the `is_test` (dry-run) flag is threaded explicitly.
-/

/-- A file content (or pattern) as its UTF-8 byte sequence. -/
abbrev Str := List Nat

/-- UTF-8 encoding of a single character (1–4 bytes). -/
def utf8Bytes (c : Char) : List Nat :=
  let n := c.toNat
  if n < 0x80 then [n]
  else if n < 0x800 then [0xC0 + n / 64, 0x80 + n % 64]
  else if n < 0x10000 then [0xE0 + n / 4096, 0x80 + (n / 64) % 64, 0x80 + n % 64]
  else [0xF0 + n / 262144, 0x80 + (n / 4096) % 64, 0x80 + (n / 64) % 64, 0x80 + n % 64]

/-- The UTF-8 bytes of a Lean string literal. -/
def strB (s : String) : Str := (s.data.map utf8Bytes).flatten

/-! ## Substring primitives (Rust `str::replace`, `find`, `match_indices`)

Rust's `str::replace(old, new)` scans left to right and rewrites the
non-overlapping occurrences of `old`.  The recursion consumes `old.length`
bytes on a match, so it is phrased with an explicit fuel (the length of the
scanned list) to stay structurally recursive; `replaceL` instantiates the
fuel.  Rust's behaviour for an empty pattern is irrelevant here (every
pattern the program builds is non-empty); with fuel style an empty pattern
matches at each position and copies the text unchanged apart from the
inserted `new` — no claim depends on it. -/

/-- Fueled core of `str::replace`. -/
def replaceGo (old new : Str) : Nat → Str → Str
  | _, [] => []
  | 0, s => s
  | fuel + 1, c :: rest =>
    if old ≠ [] ∧ old <+: (c :: rest) then
      new ++ replaceGo old new fuel ((c :: rest).drop old.length)
    else
      c :: replaceGo old new fuel rest

/-- Rust `str::replace`: rewrite the left-to-right non-overlapping
occurrences of `old` by `new`. -/
def replaceL (old new s : Str) : Str := replaceGo old new s.length s

/-- Rust `str::find` for a byte value: index of the first occurrence. -/
def firstIdxOfByte (b : Nat) : Str → Option Nat
  | [] => none
  | c :: rest => if c = b then some 0 else (firstIdxOfByte b rest).map (· + 1)

/-- Rust `str::find` for a substring pattern: index of the first occurrence. -/
def firstIdxSub (pat : Str) : Str → Option Nat
  | [] => if pat = [] then some 0 else none
  | c :: rest =>
    if pat <+: (c :: rest) then some 0 else (firstIdxSub pat rest).map (· + 1)

/-- Fueled core of `str::match_indices`: start offsets of the left-to-right
non-overlapping matches of `pat`. -/
def matchIdxGo (pat : Str) : Nat → Str → Nat → List Nat
  | _, [], _ => []
  | 0, _, _ => []
  | fuel + 1, c :: rest, i =>
    if pat ≠ [] ∧ pat <+: (c :: rest) then
      i :: matchIdxGo pat fuel ((c :: rest).drop pat.length) (i + pat.length)
    else
      matchIdxGo pat fuel rest (i + 1)

/-- Rust `str::match_indices` (start offsets only). -/
def matchIndices (pat s : Str) : List Nat := matchIdxGo pat s.length s 0

/-- Byte-range extraction `s[a..b]` (validity of the range is checked at the
call sites that model panicking slices). -/
def extract (s : Str) (a b : Nat) : Str := (s.drop a).take (b - a)

example : replaceL (strB "aa") (strB "a") (strB "aaa") = strB "aa" := by decide
example : replaceL (strB "n u") (strB "n") (strB "n u u") = strB "n u" := by decide
example : matchIndices (strB "ab") (strB "xabab") = [1, 3] := by decide
example : firstIdxOfByte 40 (strB "xy(z") = some 2 := by decide
example : firstIdxSub (strB "bc") (strB "abcbc") = some 1 := by decide

/-! ## UTF-8 char boundaries (`str::floor_char_boundary`, `ceil_char_boundary`) -/

/-- A byte position is a char boundary when it is the end of the string or
its byte is not a UTF-8 continuation byte (`0x80..0xBF`). -/
def isCB (s : Str) (i : Nat) : Bool :=
  i ≥ s.length || !(decide (128 ≤ s.getD i 0 ∧ s.getD i 0 < 192))

/-- Downward scan for `floor_char_boundary`. -/
def floorCBGo (s : Str) : Nat → Nat
  | 0 => 0
  | j + 1 => if isCB s (j + 1) then j + 1 else floorCBGo s j

/-- Rust `str::floor_char_boundary`: the largest boundary `≤ min i len`. -/
def floorCB (s : Str) (i : Nat) : Nat := floorCBGo s (min i s.length)

/-- Upward fueled scan for `ceil_char_boundary`. -/
def ceilCBGo (s : Str) : Nat → Nat → Nat
  | 0, _ => s.length
  | fuel + 1, j => if isCB s j then j else ceilCBGo s fuel (j + 1)

/-- Rust `str::ceil_char_boundary`: the smallest boundary `≥ i`, clamped to
the length. -/
def ceilCB (s : Str) (i : Nat) : Nat :=
  if i ≥ s.length then s.length else ceilCBGo s (s.length - i) i

/-! ## `utils.rs`: `encode_uri` (URL-encode, then restore the kept chars) -/

/-- Bytes kept verbatim by `urlencoding::encode`: ASCII alphanumerics and
`-`, `_`, `.`, `~`. -/
def urlUnreserved (b : Nat) : Bool :=
  (48 ≤ b && b ≤ 57) || (65 ≤ b && b ≤ 90) || (97 ≤ b && b ≤ 122) ||
    b = 45 || b = 95 || b = 46 || b = 126

/-- Uppercase hexadecimal digit as an ASCII byte. -/
def hexDigitByte (n : Nat) : Nat := if n < 10 then 48 + n else 55 + n

/-- `urlencoding::encode`: percent-encode every byte outside the unreserved
set, with uppercase hex. -/
def urlencode (s : Str) : Str :=
  (s.map fun b =>
    if urlUnreserved b then [b] else [37, hexDigitByte (b / 16), hexDigitByte (b % 16)]).flatten

/-- `CHARS_KEPT_BY_URI_ENCODING` from `utils.rs`: `-_.!~*'();/?:@&=+$,#`. -/
def charsKeptByUriEncoding : List Char :=
  ['-', '_', '.', '!', '~', '*', '\'', '(', ')', ';', '/', '?', ':', '@', '&', '=', '+', '$', ',', '#']

/-- `encode_uri` from `utils.rs`: URL-encode, then for each kept character
replace its percent-encoded form back by the raw character. -/
def encode_uri (s : Str) : Str :=
  charsKeptByUriEncoding.foldl
    (fun acc c => replaceL (urlencode (strB (String.mk [c]))) (strB (String.mk [c])) acc)
    (urlencode s)

example : encode_uri (strB "a&b u") = strB "a&b%20u" := by decide

/-! ## `html_escape::encode_safe` (byte-level; the escaped chars are ASCII) -/

/-- Per-byte escaping of `html_escape::encode_safe`. -/
def htmlByteEnc (b : Nat) : Str :=
  if b = 38 then strB "&amp;"
  else if b = 60 then strB "&lt;"
  else if b = 62 then strB "&gt;"
  else if b = 34 then strB "&quot;"
  else if b = 39 then strB "&#x27;"
  else [b]

/-- `html_escape::encode_safe`: escape `&`, `<`, `>`, `"`, `'`. -/
def htmlEncodeSafe (s : Str) : Str := (s.map htmlByteEnc).flatten

example : htmlEncodeSafe (strB "a&b u") = strB "a&amp;b u" := by decide
example : encode_uri (htmlEncodeSafe (strB "a&b u")) = strB "a&amp;b%20u" := by decide

/-! ## Paths

Rust `PathBuf` values are embedded as a parent component list plus a file
name.  `file_stem` / `extension` / `with_file_name` / `with_extension`
follow the `std::path` semantics (split at the last `.` of the file name,
a lone leading dot yields no extension). -/

/-- Index of the last `.` in a file name, if any. -/
def lastDotPos : List Char → Option Nat
  | [] => none
  | c :: rest =>
    match lastDotPos rest with
    | some i => some (i + 1)
    | none => if c = '.' then some 0 else none

structure FPath where
  parent : List String
  fname : String
deriving DecidableEq, Repr

/-- Rust `Path::extension` (on the embedded path). -/
def extF (p : FPath) : Option String :=
  match lastDotPos p.fname.data with
  | none => none
  | some 0 => none
  | some i => some (String.mk (p.fname.data.drop (i + 1)))

/-- Rust `Path::file_stem` (on the embedded path). -/
def fileStemF (p : FPath) : String :=
  match lastDotPos p.fname.data with
  | none => p.fname
  | some 0 => p.fname
  | some i => String.mk (p.fname.data.take i)

/-- Rust `Path::with_file_name`. -/
def withFileName (p : FPath) (s : String) : FPath := ⟨p.parent, s⟩

/-- Rust `Path::with_extension`. -/
def withExtensionF (p : FPath) (e : String) : FPath :=
  ⟨p.parent, if e = "" then fileStemF p else fileStemF p ++ "." ++ e⟩

example : extF ⟨["d"], "n a.md"⟩ = some "md" := by decide
example : fileStemF ⟨["d"], "n a.md"⟩ = "n a" := by decide
example : withExtensionF (withFileName ⟨["d"], "n.md"⟩ "n 1") "md" = ⟨["d"], "n 1.md"⟩ := by decide

/-! ## Entity model (`notion_object.rs`)

`content_replacing.rs` and `path_replacing.rs` match on
`NotionObject::Page(obj_info, replacable_refs)` /
`NotionObject::Database(obj_info, _, replacable_refs)`; the exact
declaration of the `replacable_refs` payload is not under `src/`, so its
shape is taken from those use sites together with the spec's
ReplacementTokenSet (§3). -/

structure GlobalRef where
  old_ref : Str
  new_ref : Str
deriving DecidableEq, Repr

structure ReplacableRefs where
  global_references : List GlobalRef
deriving DecidableEq, Repr

structure NotionObjectInfo where
  path : FPath
  name : String
  uuid : String
  dir_path : Option (List String)
  new_name : Option String
deriving DecidableEq, Repr

structure NotionDatabaseInfo where
  csv_all_path : Option FPath
  html_path : Option FPath
deriving DecidableEq, Repr

inductive NotionObject where
  | page (info : NotionObjectInfo) (refs : Option ReplacableRefs)
  | database (info : NotionObjectInfo) (db : NotionDatabaseInfo) (refs : Option ReplacableRefs)
  | otherText (path : FPath)
  | otherBinary (path : FPath)
deriving DecidableEq, Repr

namespace NotionObject

/-- The `Page(obj_info, replacable_refs) | Database(obj_info, _, replacable_refs)`
match arm used throughout `content_replacing.rs`. -/
def objRefs : NotionObject → Option (NotionObjectInfo × Option ReplacableRefs)
  | page info refs => some (info, refs)
  | database info _ refs => some (info, refs)
  | _ => none

/-- `is_page_or_dataset`. -/
def is_page_or_dataset : NotionObject → Bool
  | page _ _ | database _ _ _ => true
  | _ => false

/-- `get_path`. -/
def get_path : NotionObject → FPath
  | page info _ => info.path
  | database info _ _ => info.path
  | otherText p => p
  | otherBinary p => p

/-- `get_dir` (directory paths are embedded as their component lists). -/
def get_dir : NotionObject → Option (List String)
  | page info _ => info.dir_path
  | database info _ _ => info.dir_path
  | _ => none

/-- `has_dir`. -/
def has_dir (o : NotionObject) : Bool := (o.get_dir).isSome

/-- `accept_new_name` (same behaviour as `try_set_new_name` in
`notion_object.rs`: set `new_name` for pages and databases, no-op
otherwise). -/
def accept_new_name : NotionObject → String → NotionObject
  | page info refs, nn => page { info with new_name := some nn } refs
  | database info db refs, nn => database { info with new_name := some nn } db refs
  | o, _ => o

/-- Modelled from the spec: `get_uuid_or_invalid` is not under `src/`.  It
is the sort key of `resolve_new_names`; per §4.1 non-renamable entities
are skipped, so their key is an arbitrary constant. -/
def get_uuid_or_invalid : NotionObject → String
  | page info _ => info.uuid
  | database info _ _ => info.uuid
  | _ => "invalid"

/-- `new_name` of a renamable object, if any. -/
def newNameOf (o : NotionObject) : Option String :=
  (o.objRefs).map (fun x => x.1.new_name) |>.join

end NotionObject

/-! ## Token replacement (`rename_refs_in_file`, `notion_object.rs` 353–382) -/

/-- The four (old-form, new-form) pairs built by `rename_refs_in_file`:
raw `"name uuid"`, uri-encoded, html-escaped, and escaped-then-uri-encoded. -/
def replacementPairs (name uuid new_name : String) : List (Str × Str) :=
  let old := strB (name ++ " " ++ uuid)
  let newN := strB new_name
  [ (old, newN),
    (encode_uri old, encode_uri newN),
    (htmlEncodeSafe old, htmlEncodeSafe newN),
    (encode_uri (htmlEncodeSafe old), encode_uri (htmlEncodeSafe newN)) ]

/-- The chained `.replace(..)` calls of `rename_refs_in_file`: one
left-to-right `str::replace` pass per pair, in the order of
`replacementPairs`. -/
def rename_refs_tokens (name uuid new_name : String) (c : Str) : Str :=
  (replacementPairs name uuid new_name).foldl (fun s p => replaceL p.1 p.2 s) c

example :
    rename_refs_tokens "a&b" "u" "a&b" (strB "a&b u u a&b%20u a&amp;b u a&amp;b%20u") =
      strB "a&b u a&b a&amp;b a&amp;b" := by decide

/-! ## Relative link targets

`content_replacing.rs` calls `object.get_relative_path(file_path)`; that
method is not under `src/`. -/

/-- Length of the common prefix of two component lists. -/
def commonPrefixLen : List String → List String → Nat
  | a :: as', b :: bs' => if a = b then commonPrefixLen as' bs' + 1 else 0
  | _, _ => 0

/-- Modelled from the spec: relative path from the referencing file's
directory to the entity's file (§3 "Relative link target", §4.2), as a
`/`-separated byte string. -/
def relPathString (target : FPath) (base : FPath) : Str :=
  let k := commonPrefixLen target.parent base.parent
  let comps :=
    List.replicate (base.parent.length - k) ".." ++ target.parent.drop k ++ [target.fname]
  strB (String.intercalate "/" comps)

/-- Modelled from the spec: `get_relative_path` (used by
`prepare_rename_refs_in_content`) is not under `src/`.  Per §4.2 it is the
relative path from the referencing file's directory to the entity's file
with the old `"name uuid"` identity substituted by the resolved name, and
entities without a resolved name produce no structural-link edit. -/
def NotionObject.get_relative_path (o : NotionObject) (filePath : FPath) : Option Str :=
  match o.objRefs with
  | some (info, _) =>
    info.new_name.map fun nn =>
      replaceL (strB (info.name ++ " " ++ info.uuid)) (strB nn)
        (relPathString info.path filePath)
  | none => none

/-! ## Reference locator and splice engine (`content_replacing.rs`) -/

/-- `NOTION_LINK_MARKER` (`constants.rs`). -/
def notionLinkMarker : Str := strB "notion.so"

/-- `ReplaceDescriptor`: byte range in the original buffer plus replacement
text (`stop` stands for `byte_range.end`). -/
structure ReplaceDescriptor where
  start : Nat
  stop : Nat
  new_text : Str
deriving DecidableEq, Repr

/-- The `notion_links_markers` computation of
`prepare_rename_refs_in_content` (lines 45–64): for each occurrence of the
marker, a window is cut around it (30 bytes back, marker + 36 + 60 bytes
forward, snapped to char boundaries), the *first* `(` in the backward
window and the first `)` after the marker are located, and the span
between them (parentheses excluded) is returned. -/
def notion_links_markers (c : Str) : List (Nat × Nat) :=
  (matchIndices notionLinkMarker c).filterMap fun i =>
    let windowStart := if i ≤ 30 then 0 else floorCB c (i - 30)
    let windowEnd := ceilCB c (i + notionLinkMarker.length + 36 + 60)
    match firstIdxOfByte 40 (extract c windowStart i) with
    | none => none
    | some f =>
      match firstIdxOfByte 41 (extract c i windowEnd) with
      | none => none
      | some g => some (windowStart + f + 1, i + g)

/-- `prepare_rename_refs_in_content`: token descriptors (one per
`match_indices` hit of each `old_ref`) followed by structural-link
descriptors (marker spans containing the object's uuid, replaced by the
relative path), per object in list order. -/
def prepare_rename_refs_in_content (c : Str) (filePath : FPath)
    (all_objects : List NotionObject) : List ReplaceDescriptor :=
  let markers := notion_links_markers c
  all_objects.flatMap fun o =>
    match o.objRefs with
    | none => []
    | some (info, refs) =>
      (match refs with
       | some rr =>
         rr.global_references.flatMap fun r =>
           (matchIndices r.old_ref c).map fun s =>
             ⟨s, s + r.old_ref.length, r.new_ref⟩
       | none => []) ++
      (match o.get_relative_path filePath with
       | some rp =>
         markers.filterMap fun m =>
           if strB info.uuid <:+: extract c m.1 m.2 then
             some ⟨m.1, m.2, rp⟩
           else none
       | none => [])

/-- `descriptors.sort_by_key(|d| d.byte_range.start)` (stable). -/
def sortDescs (ds : List ReplaceDescriptor) : List ReplaceDescriptor :=
  List.insertionSort (fun a b => a.start ≤ b.start) ds

/-- The backwards removal loop of `do_rename_refs_in_content` (lines
109–116): walking the list from the end, a descriptor is removed when its
start lies before the end of the descriptor at the previous index of the
*sorted* list — the comparison point advances to every descriptor, whether
or not it was itself removed. -/
def keepByPredecessor : ReplaceDescriptor → List ReplaceDescriptor → List ReplaceDescriptor
  | _, [] => []
  | prev, d :: rest =>
    if d.start < prev.stop then keepByPredecessor d rest
    else d :: keepByPredecessor d rest

/-- Descriptors surviving the removal loop. -/
def removeOverlapping : List ReplaceDescriptor → List ReplaceDescriptor
  | [] => []
  | d :: rest => d :: keepByPredecessor d rest

/-- Byte slice `c[a..b]`, `none` modelling the Rust panic on an inverted
range, an out-of-bounds end, or a non-boundary endpoint. -/
def sliceOpt (c : Str) (a b : Nat) : Option Str :=
  if a ≤ b ∧ b ≤ c.length ∧ isCB c a ∧ isCB c b then some (extract c a b) else none

/-- The reconstruction loop of `do_rename_refs_in_content` (lines
118–127): literal span since the cursor, replacement text, cursor moved to
the range end; `none` when a slice panics. -/
def spliceGo (c : Str) (lastEnd : Nat) : List ReplaceDescriptor → Option Str
  | [] => sliceOpt c lastEnd c.length
  | d :: rest =>
    match sliceOpt c lastEnd d.start with
    | none => none
    | some seg =>
      (spliceGo c d.stop rest).map fun t => seg ++ d.new_text ++ t

/-- Outcome of `do_rename_refs_in_content`: `noEdit` is the `None` return
for an empty descriptor list, `crashed` models a panic. -/
inductive RenameOutcome where
  | noEdit
  | crashed
  | ok (s : Str)
deriving DecidableEq, Repr

/-- `do_rename_refs_in_content` (lines 101–130). -/
def do_rename_refs_in_content (c : Str) (descriptors : List ReplaceDescriptor) :
    RenameOutcome :=
  if descriptors.isEmpty then .noEdit
  else
    match spliceGo c 0 (removeOverlapping (sortDescs descriptors)) with
    | none => .crashed
    | some s => .ok s

/-! ## Validator (`validate_rename_refs_in_content`, lines 132–172) -/

/-- `RenameRefsInFileError::RefRemainingInFile`. -/
structure RefWarning where
  uuid : String
  new_name : String
  window_where_uuid_appears : Str
  looked_for : List Str
deriving DecidableEq, Repr

/-- The error built when an object's uuid is found at byte `idx` of the new
content (context window snapped to char boundaries, searched token forms
listed). -/
def mkRefWarning (c : Str) (info : NotionObjectInfo) (refs : Option ReplacableRefs)
    (idx : Nat) : RefWarning :=
  let off := max 30 ((strB info.name).length * 2)
  let uuidSize := (strB info.uuid).length
  let b := if idx > off then floorCB c (idx - off) else 0
  let e := ceilCB c (idx + uuidSize + off)
  { uuid := info.uuid
    new_name := info.new_name.getD ""
    window_where_uuid_appears := extract c b e
    looked_for :=
      match refs with
      | some rr => rr.global_references.map (fun r => r.old_ref)
      | none => [] }

/-- `validate_rename_refs_in_content`: re-scan the produced text for every
renamable object's bare uuid; at most one error per object. -/
def validate_rename_refs_in_content (c : Str) (all_objects : List NotionObject) :
    List RefWarning :=
  all_objects.flatMap fun o =>
    match o.objRefs with
    | some (info, refs) =>
      match firstIdxSub (strB info.uuid) c with
      | some idx => [mkRefWarning c info refs idx]
      | none => []
    | none => []

/-! ## Per-file pipeline (`rename_refs_in_all_files`, lines 175–207) -/

/-- Outcome of processing one file: `crashed` models a panic; otherwise the
content written back (`none` when no write happened) and the warnings
reported. -/
inductive FileRun where
  | crashed
  | finished (written : Option Str) (warnings : List RefWarning)
deriving DecidableEq, Repr

/-- The body of the `rename_refs_in_all_files` loop for one readable file:
prepare descriptors, splice, and — only when a rewrite was produced —
validate, report the warnings (suppressed for `index.html`), and write the
new content (suppressed when `is_test`). -/
def rename_refs_in_one_file (isIndexHtml : Bool) (c : Str) (filePath : FPath)
    (all_objects : List NotionObject) (is_test : Bool) : FileRun :=
  let descriptors := prepare_rename_refs_in_content c filePath all_objects
  match do_rename_refs_in_content c descriptors with
  | .noEdit => .finished none []
  | .crashed => .crashed
  | .ok newContent =>
    let errors := validate_rename_refs_in_content newContent all_objects
    .finished (if is_test then none else some newContent)
      (if isIndexHtml then [] else errors)

/-! ## Name resolution (`resolve_new_names`, `path_replacing.rs` 10–80)

The source first builds `paths_after_files_renamed` by iterating `objects`
in input order, *then* sorts `objects` by uuid, and then pairs
`objects[i]` (sorted) with `paths_after_files_renamed[i]` (input order);
the embedding reproduces that pairing.  Rust panics (`extension().unwrap()`
on an extension-less renamable path) and a non-terminating suffix search
are modelled by `none`. -/

/-- Lexicographic strict comparison on char lists; on valid UTF-8 this
coincides with Rust's byte-wise `str` ordering. -/
def charListLt : List Char → List Char → Bool
  | [], [] => false
  | [], _ :: _ => true
  | _ :: _, [] => false
  | a :: as', b :: bs' =>
    if a.toNat < b.toNat then true
    else if b.toNat < a.toNat then false
    else charListLt as' bs'

/-- Rust `String::cmp(..) != Greater`. -/
def strCmpLe (a b : String) : Bool := !(charListLt b.data a.data)

/-- The sort `objects.sort_by(|l, r| l.get_uuid_or_invalid().cmp(..))`
(stable). -/
def sortByUuid (objs : List NotionObject) : List NotionObject :=
  List.insertionSort
    (fun a b => strCmpLe a.get_uuid_or_invalid b.get_uuid_or_invalid = true) objs

/-- The `while new_paths_seen.contains(&desired_path)` suffix search:
append `" N"` (N = `add`, incrementing) to the display name and re-attach
the previous candidate's extension until the candidate is unseen.  `fuel`
makes the loop structural; `none` models non-termination. -/
def findFreePath (name : String) : Nat → Nat → FPath → List FPath → Option FPath
  | 0, _, _, _ => none
  | fuel + 1, add, p, seen =>
    if p ∈ seen then
      findFreePath name fuel (add + 1)
        (withExtensionF (withFileName p (name ++ " " ++ toString add)) ((extF p).getD ""))
        seen
    else some p

/-- The indexed loop of `resolve_new_names` over the sorted objects zipped
with the input-order desired paths, threading `new_paths_seen`.  Returns
the updated objects and the final `new_paths_seen`. -/
def resolveLoop (name : String) :
    List (NotionObject × Option FPath) → List FPath →
      Option (List NotionObject × List FPath)
  | [], seen => some ([], seen)
  | (o, none) :: rest, seen =>
    (resolveLoop name rest seen).map fun r => (o :: r.1, r.2)
  | (o, some p) :: rest, seen =>
    match findFreePath name (seen.length + 2) 1 p seen with
    | none => none
    | some q =>
      (resolveLoop name rest (q :: seen)).map fun r =>
        (o.accept_new_name (fileStemF q) :: r.1, r.2)

/-- One group of `resolve_new_names` (the body of the `for (name, objects)`
loop), returning the updated objects (in uuid-sorted order for groups of
size > 1) and the recorded `new_paths_seen`. -/
def resolve_new_names_group (name : String) (objects : List NotionObject) :
    Option (List NotionObject × List FPath) :=
  match objects with
  | [o] => some ([o.accept_new_name name], [])
  | objs =>
    match objs.mapM (fun o =>
      if o.is_page_or_dataset then
        match extF o.get_path with
        | none => (none : Option (Option FPath))
        | some ext => some (some (withFileName o.get_path (name ++ "." ++ ext)))
      else some none) with
    | none => none
    | some paths_after_files_renamed =>
      resolveLoop name ((sortByUuid objs).zip paths_after_files_renamed) []

/-! ## Rename sequencer (`path_replacing.rs` 84–134)

`rename_objects_files` / `rename_directories` call
`get_old_and_new_paths`, `get_old_and_new_csv_all_paths`,
`get_old_and_new_html_paths` and `get_old_and_new_dir_paths`, which are
not under `src/`; the pair computations are taken from their in-`src/`
counterparts in `notion_object.rs` (`rename_object_files` 480–529,
`rename_dir` 544–555).  Each `fs::rename` is guarded by `!is_test`; the
emitted rename operations model the performed system calls. -/

/-- `(old, new)` for the primary file: resolved name + original extension. -/
def filePair (info : NotionObjectInfo) : FPath × FPath :=
  (info.path,
    withExtensionF (withFileName info.path (info.new_name.getD "")) ((extF info.path).getD ""))

/-- `(old, new)` for a database's `_all` companion. -/
def csvAllPair (info : NotionObjectInfo) (p : FPath) : FPath × FPath :=
  (p, withExtensionF (withFileName p (info.new_name.getD "" ++ "_all")) ((extF p).getD ""))

/-- `(old, new)` for a database's rendered-view companion. -/
def htmlPair (info : NotionObjectInfo) (p : FPath) : FPath × FPath :=
  (p, withExtensionF (withFileName p (info.new_name.getD "")) ((extF p).getD ""))

/-- `rename_objects_files`: per renamable object, the rename system calls
performed (primary file, then `_all` companion, then view companion), each
suppressed by `is_test`. -/
def rename_objects_files (all_objects : List NotionObject) (is_test : Bool) :
    List (FPath × FPath) :=
  (all_objects.filter NotionObject.is_page_or_dataset).flatMap fun o =>
    match o with
    | .page info _ => if is_test then [] else [filePair info]
    | .database info db _ =>
      (if is_test then [] else [filePair info]) ++
      (match db.csv_all_path with
       | some p => if is_test then [] else [csvAllPair info p]
       | none => []) ++
      (match db.html_path with
       | some p => if is_test then [] else [htmlPair info p]
       | none => [])
    | _ => []

/-- Component count of an object's owned directory (0 when none; only
objects with a directory are ever sorted by it). -/
def dirDepth (o : NotionObject) : Nat := ((o.get_dir).map List.length).getD 0

/-- The processing order of `rename_directories`: objects owning a
directory, sorted ascending by component count and reversed (deepest
first). -/
def dirRenameOrder (all_objects : List NotionObject) : List NotionObject :=
  (List.insertionSort (fun a b => dirDepth a ≤ dirDepth b)
    (all_objects.filter NotionObject.has_dir)).reverse

/-- `(old, new)` for an owned directory: last component replaced by the
resolved name. -/
def dirPair (o : NotionObject) : List String × List String :=
  let d := (o.get_dir).getD []
  (d, d.dropLast ++ [((o.objRefs).map fun x => x.1.new_name.getD "").getD ""])

/-- `rename_directories`: the rename system calls performed, in
`dirRenameOrder`, each suppressed by `is_test`. -/
def rename_directories (all_objects : List NotionObject) (is_test : Bool) :
    List (List String × List String) :=
  (dirRenameOrder all_objects).flatMap fun o => if is_test then [] else [dirPair o]

/-! ## Whole-tree content stage (for the dry-run claim)

Files are identified by a numeric id into a filesystem map; each loop
iteration reads the file, runs the per-file pipeline, and writes back only
when a rewrite was produced and `is_test` is off. -/

structure MFile where
  pid : Nat
  isIndexHtml : Bool
  path : FPath
deriving DecidableEq, Repr

/-- Outcome of the content stage over a file list. -/
inductive StageOut where
  | crashed
  | ok (fs : Nat → Str) (warnings : List RefWarning)

/-- The `rename_refs_in_all_files` loop over the whole file list,
threading the filesystem. -/
def content_stage (all_objects : List NotionObject) (is_test : Bool) :
    (Nat → Str) → List MFile → StageOut
  | fs, [] => .ok fs []
  | fs, f :: rest =>
    let c := fs f.pid
    match rename_refs_in_one_file f.isIndexHtml c f.path all_objects is_test with
    | .crashed => .crashed
    | .finished written ws =>
      let fs' :=
        match written with
        | some newC => fun p => if p = f.pid then newC else fs p
        | none => fs
      match content_stage all_objects is_test fs' rest with
      | .crashed => .crashed
      | .ok fsF wsR => .ok fsF (ws ++ wsR)

/-- The warnings of a stage outcome (`none` when it crashed). -/
def stageWarnings : StageOut → Option (List RefWarning)
  | .crashed => none
  | .ok _ ws => some ws

/-! ## Concrete inputs used by the individual claims -/

/-- Modelled from the spec: the `ReplacableRefs` container is built per
§3/§4.1 as the four encoded (old-form, new-form) pairs of the entity's old
identity. -/
def build_replacable_refs (name uuid new_name : String) : ReplacableRefs :=
  ⟨(replacementPairs name uuid new_name).map fun p => ⟨p.1, p.2⟩⟩

/-- A ten-byte buffer for the splice-overlap claim. -/
def c1Content : Str := strB "0123456789"

/-- Three descriptors: a nested pair inside a long one.  Sorted by start
they are `[0,10)`, `[5,6)`, `[7,8)`. -/
def c1Descs : List ReplaceDescriptor :=
  [⟨5, 6, strB "Y"⟩, ⟨7, 8, strB "Z"⟩, ⟨0, 10, strB "X"⟩]

/-- Two pages desiring the name `"n"` in different directories. -/
def c2A : NotionObject := .page ⟨⟨["a"], "n ua.md"⟩, "n", "ua", none, none⟩ none

def c2B : NotionObject := .page ⟨⟨["b"], "n ub.md"⟩, "n", "ub", none, none⟩ none

/-- Three pages desiring the name `"n"`: uuids `a`, `b`, `c`; `a` and `c`
share directory `d`, `b` lives in `e`. -/
def c3A : NotionObject := .page ⟨⟨["d"], "n a.md"⟩, "n", "a", none, none⟩ none

def c3B : NotionObject := .page ⟨⟨["e"], "n b.md"⟩, "n", "b", none, none⟩ none

def c3C : NotionObject := .page ⟨⟨["d"], "n c.md"⟩, "n", "c", none, none⟩ none

/-- Content with all four encoded old forms of the identity `"a&b u"`,
with an extra `" u"` after the raw occurrence. -/
def c4Content : Str := strB "a&b u u a&b%20u a&amp;b u a&amp;b%20u"

/-- Content with nested parentheses around the link marker: the nearest
enclosing `(` sits at byte 5, an outer one at byte 2 (both inside the
30-byte backward window). -/
def c5Content : Str := strB "a (x (y notion.so) z)"

/-- A renamed page `"n u"` for the validator claim. -/
def c6Obj : NotionObject :=
  .page ⟨⟨[], "n u.md"⟩, "n", "u", none, some "n"⟩ (some (build_replacable_refs "n" "u" "n"))

/-- Content holding the bare uuid but none of the four replaced forms and
no link marker. -/
def c6Content : Str := strB "u"

/-- Two pages owning directories at depth 1 and depth 3. -/
def c7o1 : NotionObject := .page ⟨⟨[], "p.md"⟩, "p", "u1", some ["r"], some "p"⟩ none

def c7o2 : NotionObject := .page ⟨⟨[], "q.md"⟩, "q", "u2", some ["r", "s", "t"], some "q"⟩ none

/-- A renamed page `"A u"` whose four token forms and structural links
appear in `c10Content`. -/
def c10Obj : NotionObject :=
  .page ⟨⟨[], "A u.md"⟩, "A", "u", none, some "A"⟩ (some (build_replacable_refs "A" "u" "A"))

/-- A link span containing two disjoint token matches of `"A u"`. -/
def c10Content : Str := strB "(notion.so A u A u)"

/-- A generic referencing-file path for the concrete runs. -/
def exampleFilePath : FPath := ⟨[], "f.md"⟩

/-! ## Order instances for the directory-depth sort -/

instance : IsTotal NotionObject (fun a b => dirDepth a ≤ dirDepth b) :=
  ⟨fun a b => Nat.le_total (dirDepth a) (dirDepth b)⟩

instance : IsTrans NotionObject (fun a b => dirDepth a ≤ dirDepth b) :=
  ⟨fun _ _ _ h₁ h₂ => Nat.le_trans h₁ h₂⟩

/-- The uuids of the renamable objects, in list order. -/
def uuidsOf (objs : List NotionObject) : List String :=
  objs.filterMap fun o => (o.objRefs).map fun x => x.1.uuid

/-! # Theorems -/

/-- C1.  The overlap-removal loop compares each sorted descriptor with its
immediate predecessor in the sorted list, not with the previous *kept*
descriptor: on the descriptor list `[5,6)∣[7,8)∣[0,10)` the walk keeps
both `[0,10)` and `[7,8)` (the claim's policy would discard `[7,8)`,
whose start 7 lies before the kept end 10), so the applied set overlaps
and the splice slices `[10..7]` — a panic, not a buffer of the claimed
length. -/
theorem c1_overlap_policy_bug :
    removeOverlapping (sortDescs c1Descs) =
      [⟨0, 10, strB "X"⟩, ⟨7, 8, strB "Z"⟩] ∧
    do_rename_refs_in_content c1Content c1Descs = RenameOutcome.crashed := by
  constructor
  · decide
  · decide

/-- C2 counterexample.  Two pages in different directories both desiring
the display name `"n"` are both resolved to `"n"`: the resolved names of a
group are not pairwise distinct. -/
theorem c2_counterexample :
    (resolve_new_names_group "n" [c2A, c2B]).map (fun r => r.1.map NotionObject.newNameOf) =
      some [some "n", some "n"] := by decide

/-- C3.  `resolve_new_names` builds `paths_after_files_renamed` in input
order and only then sorts the objects by uuid, pairing `objects[i]`
(sorted) with the path of the `i`-th *input* object; resolution is
therefore input-order dependent, contradicting the `// Sort by uuid to
ensure determinism` intent: the same three-page set presented as
`[A, B, C]` and `[C, A, B]` assigns `"n 1"` to uuid `c` in the first run
and to uuid `b` in the second. -/
theorem c3_order_dependent :
    (resolve_new_names_group "n" [c3A, c3B, c3C]).map
        (fun r => r.1.map fun o => (o.get_uuid_or_invalid, o.newNameOf)) =
      some [("a", some "n"), ("b", some "n"), ("c", some "n 1")] ∧
    (resolve_new_names_group "n" [c3C, c3A, c3B]).map
        (fun r => r.1.map fun o => (o.get_uuid_or_invalid, o.newNameOf)) =
      some [("a", some "n"), ("b", some "n 1"), ("c", some "n")] := by
  constructor
  · decide
  · decide

/-- C4 counterexample.  For the entity `"a&b"`/`"u"` resolved to `"a&b"`,
`c4Content` contains all four old forms, yet after the four replacement
passes the raw old form `"a&b u"` is still present (the first pass's
rewrite of `"a&b u u"` re-creates it, and the remaining passes search for
the other encodings only). -/
theorem c4_counterexample :
    ((replacementPairs "a&b" "u" "a&b").all fun p => decide (p.1 <:+: c4Content)) = true ∧
    rename_refs_tokens "a&b" "u" "a&b" c4Content = strB "a&b u a&b a&amp;b a&amp;b" ∧
    strB "a&b u" <:+: rename_refs_tokens "a&b" "u" "a&b" c4Content := by
  refine ⟨by decide, by decide, by decide⟩

/-- C5.  On `"a (x (y notion.so) z)"` the locator returns the span
`(3, 17)`, i.e. the pair anchored at the *first* `(` of the backward
window (byte 2) — `file_contents[window_start..marker].find('(')` — even
though a nearer enclosing `(` sits at byte 5 (the nearest enclosing pair
would be `(6, 17)`). -/
theorem c5_first_paren_not_nearest :
    notion_links_markers c5Content = [(3, 17)] ∧ extract c5Content 5 6 = strB "(" := by
  constructor
  · decide
  · decide

/-- C6 counterexample.  When no edit descriptor is found, the file is
neither validated nor written: on content consisting of the bare uuid
`"u"` alone (no token form, no link marker), the per-file pipeline reports
no warning for a non-`index.html` file, although a re-scan of the
(unchanged) text finds the stale identifier. -/
theorem c6_counterexample :
    rename_refs_in_one_file false c6Content exampleFilePath [c6Obj] false =
      FileRun.finished none [] ∧
    (validate_rename_refs_in_content c6Content [c6Obj]).length = 1 := by
  constructor
  · decide
  · decide

/-- C8.  A file whose edit-descriptor list is empty is left untouched: the
splice step returns no rewrite, nothing is validated, no warning is
reported and no write is performed. -/
theorem c8_empty_descriptors_untouched (isIndexHtml is_test : Bool) (c : Str)
    (fp : FPath) (objs : List NotionObject)
    (h : prepare_rename_refs_in_content c fp objs = []) :
    rename_refs_in_one_file isIndexHtml c fp objs is_test = FileRun.finished none [] := by
  unfold rename_refs_in_one_file
  rw [h]
  rfl

theorem c8_witness :
    prepare_rename_refs_in_content (strB "hello") exampleFilePath [] = [] ∧
    rename_refs_in_one_file false (strB "hello") exampleFilePath [] false =
      FileRun.finished none [] :=
  ⟨by decide, c8_empty_descriptors_untouched false false (strB "hello") exampleFilePath []
    (by decide)⟩

/-- Helper for C7: the directory-rename order is pairwise descending in
component count. -/
theorem dirRenameOrder_pairwise (objs : List NotionObject) :
    List.Pairwise (fun a b => dirDepth b ≤ dirDepth a) (dirRenameOrder objs) := by
  unfold dirRenameOrder
  rw [List.pairwise_reverse]
  exact List.sorted_insertionSort _ _

/-- C7.  Directories are renamed deepest first: whenever the object at
position `i` of the rename order owns a directory that is a strict
ancestor (proper component prefix) of the directory owned by the object at
position `j`, the descendant's position `j` comes strictly before `i`. -/
theorem c7_descendant_renamed_first (objs : List NotionObject) (i j : Nat)
    (hi : i < (dirRenameOrder objs).length) (hj : j < (dirRenameOrder objs).length)
    (da db : List String)
    (hda : ((dirRenameOrder objs).get ⟨i, hi⟩).get_dir = some da)
    (hdb : ((dirRenameOrder objs).get ⟨j, hj⟩).get_dir = some db)
    (hpre : da <+: db) (hne : da ≠ db) :
    j < i := by
  have hda' : (dirRenameOrder objs)[i].get_dir = some da := hda
  have hdb' : (dirRenameOrder objs)[j].get_dir = some db := hdb
  have hdepth : dirDepth ((dirRenameOrder objs).get ⟨i, hi⟩) <
      dirDepth ((dirRenameOrder objs).get ⟨j, hj⟩) := by
    have h1 : dirDepth ((dirRenameOrder objs).get ⟨i, hi⟩) = da.length := by
      simp [dirDepth, hda']
    have h2 : dirDepth ((dirRenameOrder objs).get ⟨j, hj⟩) = db.length := by
      simp [dirDepth, hdb']
    rw [h1, h2]
    exact Nat.lt_of_le_of_ne hpre.length_le fun he => hne (hpre.eq_of_length he)
  rcases Nat.lt_trichotomy j i with h | h | h
  · exact h
  · exfalso
    subst h
    rw [hda] at hdb
    exact hne (Option.some.inj hdb)
  · exfalso
    have hij : (⟨i, hi⟩ : Fin (dirRenameOrder objs).length) < ⟨j, hj⟩ :=
      Fin.mk_lt_mk.mpr h
    have := (List.pairwise_iff_get.mp (dirRenameOrder_pairwise objs)) ⟨i, hi⟩ ⟨j, hj⟩ hij
    exact Nat.not_le_of_lt hdepth this

theorem c7_witness :
    (dirRenameOrder [c7o1, c7o2]).length = 2 ∧ 0 < 1 :=
  ⟨by decide,
    c7_descendant_renamed_first [c7o1, c7o2] 1 0 (by decide) (by decide)
      ["r"] ["r", "s", "t"] (by decide) (by decide) (by decide) (by decide)⟩

/-- Helper for C2: `findFreePath` only returns candidates outside `seen`. -/
theorem findFreePath_not_mem (name : String) :
    ∀ (fuel add : Nat) (p : FPath) (seen : List FPath) (q : FPath),
      findFreePath name fuel add p seen = some q → q ∉ seen := by
  intro fuel
  induction fuel with
  | zero => intro add p seen q h; exact absurd h (by simp [findFreePath])
  | succ n ih =>
    intro add p seen q h
    rw [findFreePath] at h
    by_cases hp : p ∈ seen
    · rw [if_pos hp] at h
      exact ih _ _ _ _ h
    · rw [if_neg hp] at h
      cases h
      exact hp

/-- Helper for C2: the loop keeps `new_paths_seen` duplicate-free. -/
theorem resolveLoop_nodup (name : String) :
    ∀ (items : List (NotionObject × Option FPath)) (seen : List FPath)
      (res : List NotionObject × List FPath),
      resolveLoop name items seen = some res → seen.Nodup → res.2.Nodup := by
  intro items
  induction items with
  | nil =>
    intro seen res h hnd
    rw [resolveLoop] at h
    cases h
    exact hnd
  | cons it rest ih =>
    intro seen res h hnd
    obtain ⟨o, po⟩ := it
    cases po with
    | none =>
      rw [resolveLoop] at h
      cases hr : resolveLoop name rest seen with
      | none => rw [hr] at h; cases h
      | some r =>
        rw [hr, Option.map_some'] at h
        cases h
        exact ih seen r hr hnd
    | some p =>
      rw [resolveLoop] at h
      cases hf : findFreePath name (seen.length + 2) 1 p seen with
      | none => rw [hf] at h; cases h
      | some q =>
        rw [hf] at h
        dsimp only at h
        cases hr : resolveLoop name rest (q :: seen) with
        | none => rw [hr] at h; cases h
        | some r =>
          rw [hr, Option.map_some'] at h
          cases h
          exact ih (q :: seen) r hr
            (List.nodup_cons.mpr ⟨findFreePath_not_mem name _ _ _ _ _ hf, hnd⟩)

/-- C2 amended.  What `resolve_new_names` keeps pairwise distinct within a
group is the set of desired *paths* (existing directory + resolved name +
existing extension) recorded in `new_paths_seen`, not the resolved names
themselves: whenever a group resolves without panicking, the recorded
paths are duplicate-free. -/
theorem c2_amended_paths_nodup (name : String) (objects : List NotionObject)
    (res : List NotionObject × List FPath)
    (h : resolve_new_names_group name objects = some res) : res.2.Nodup := by
  cases objects with
  | nil =>
    rw [resolve_new_names_group] at h
    · simp only [List.mapM_nil] at h
      exact resolveLoop_nodup name _ _ _ h List.nodup_nil
    · intro o ho
      simp at ho
  | cons a t =>
    cases t with
    | nil =>
      rw [resolve_new_names_group] at h
      cases h
      exact List.nodup_nil
    | cons b t2 =>
      rw [resolve_new_names_group] at h
      · cases hm : (a :: b :: t2).mapM (fun o =>
            if o.is_page_or_dataset then
              match extF o.get_path with
              | none => (none : Option (Option FPath))
              | some ext => some (some (withFileName o.get_path (name ++ "." ++ ext)))
            else some none) with
        | none => rw [hm] at h; cases h
        | some paths =>
          rw [hm] at h
          exact resolveLoop_nodup name _ _ _ h List.nodup_nil
      · intro o ho
        simp at ho

theorem c2_amended_witness :
    resolve_new_names_group "n" [c2A, c2B] =
      some ([c2A.accept_new_name "n", c2B.accept_new_name "n"],
        [⟨["b"], "n.md"⟩, ⟨["a"], "n.md"⟩]) ∧
    ([⟨["b"], "n.md"⟩, ⟨["a"], "n.md"⟩] : List FPath).Nodup :=
  ⟨by decide,
    c2_amended_paths_nodup "n" [c2A, c2B]
      ([c2A.accept_new_name "n", c2B.accept_new_name "n"],
        [⟨["b"], "n.md"⟩, ⟨["a"], "n.md"⟩]) (by decide)⟩

/-- Helper for C6: the validator's per-object `new_file_contents.find`
succeeds exactly when the uuid occurs in the text. -/
theorem firstIdxSub_isSome_iff (pat : Str) :
    ∀ s : Str, (firstIdxSub pat s).isSome ↔ pat <:+: s := by
  intro s
  induction s with
  | nil =>
    by_cases hp : pat = [] <;> simp [firstIdxSub, hp, List.infix_nil]
  | cons c rest ih =>
    rw [firstIdxSub]
    by_cases hp : pat <+: (c :: rest)
    · simp [hp, List.infix_cons_iff, Or.inl hp]
    · simp [hp, List.infix_cons_iff, Option.isSome_map, ih]

/-- Helper for C6: a non-renamable head contributes nothing to the uuid
list. -/
theorem uuidsOf_cons_none {o : NotionObject} (t : List NotionObject)
    (ho : o.objRefs = none) : uuidsOf (o :: t) = uuidsOf t := by
  simp [uuidsOf, List.filterMap_cons, ho]

/-- Helper for C6: a renamable head contributes its uuid. -/
theorem uuidsOf_cons_some {o : NotionObject} (t : List NotionObject)
    {info : NotionObjectInfo} {refs : Option ReplacableRefs}
    (ho : o.objRefs = some (info, refs)) :
    uuidsOf (o :: t) = info.uuid :: uuidsOf t := by
  simp [uuidsOf, List.filterMap_cons, ho]

/-- Helper for C6: the validator skips a non-renamable head. -/
theorem validate_cons_none (c : Str) {o : NotionObject} (t : List NotionObject)
    (ho : o.objRefs = none) :
    validate_rename_refs_in_content c (o :: t) = validate_rename_refs_in_content c t := by
  simp [validate_rename_refs_in_content, List.flatMap_cons, ho]

/-- Helper for C6: the validator's contribution of a renamable head. -/
theorem validate_cons_some (c : Str) {o : NotionObject} (t : List NotionObject)
    {info : NotionObjectInfo} {refs : Option ReplacableRefs}
    (ho : o.objRefs = some (info, refs)) :
    validate_rename_refs_in_content c (o :: t) =
      (match firstIdxSub (strB info.uuid) c with
        | some idx => [mkRefWarning c info refs idx]
        | none => []) ++ validate_rename_refs_in_content c t := by
  simp [validate_rename_refs_in_content, List.flatMap_cons, ho]

/-- Helper for C6: no warning mentions a uuid outside the object list. -/
theorem validate_count_not_mem (c : Str) (u : String) :
    ∀ objs : List NotionObject, u ∉ uuidsOf objs →
      ((validate_rename_refs_in_content c objs).filter
        (fun w => w.uuid == u)).length = 0 := by
  intro objs
  induction objs with
  | nil => intro _; rfl
  | cons o t ih =>
    intro hu
    cases ho : o.objRefs with
    | none =>
      rw [validate_cons_none c t ho]
      exact ih (by rwa [uuidsOf_cons_none t ho] at hu)
    | some ir =>
      obtain ⟨i1, r1⟩ := ir
      rw [validate_cons_some c t ho, List.filter_append, List.length_append]
      have hne : i1.uuid ≠ u := by
        intro he
        exact hu (by rw [uuidsOf_cons_some t ho, he]; exact List.mem_cons_self _ _)
      have hu' : u ∉ uuidsOf t := fun hm =>
        hu (by rw [uuidsOf_cons_some t ho]; exact List.mem_cons_of_mem _ hm)
      have hhead :
          ((match firstIdxSub (strB i1.uuid) c with
            | some idx => [mkRefWarning c i1 r1 idx]
            | none => []) : List RefWarning).filter (fun w => w.uuid == u) = [] := by
        cases hf : firstIdxSub (strB i1.uuid) c with
        | none => rfl
        | some idx => simp [mkRefWarning, hne]
      rw [hhead, List.length_nil, ih hu']

/-- Helper for C6: with pairwise-distinct uuids, a listed renamable entity
gets exactly one warning when its uuid occurs in the text, none when it
does not. -/
theorem validate_count_mem (c : Str) (u : String) :
    ∀ objs : List NotionObject, (uuidsOf objs).Nodup → u ∈ uuidsOf objs →
      ((validate_rename_refs_in_content c objs).filter
        (fun w => w.uuid == u)).length = if strB u <:+: c then 1 else 0 := by
  intro objs
  induction objs with
  | nil => intro _ hm; exact absurd hm (by simp [uuidsOf])
  | cons o t ih =>
    intro hnd hm
    cases ho : o.objRefs with
    | none =>
      rw [validate_cons_none c t ho]
      rw [uuidsOf_cons_none t ho] at hnd hm
      exact ih hnd hm
    | some ir =>
      obtain ⟨i1, r1⟩ := ir
      rw [validate_cons_some c t ho, List.filter_append, List.length_append]
      rw [uuidsOf_cons_some t ho] at hnd hm
      have hnd1 : i1.uuid ∉ uuidsOf t := (List.nodup_cons.mp hnd).1
      have hndt : (uuidsOf t).Nodup := (List.nodup_cons.mp hnd).2
      rcases List.mem_cons.mp hm with he | hmt
      · subst he
        rw [validate_count_not_mem c i1.uuid t hnd1]
        have hhead :
            (((match firstIdxSub (strB i1.uuid) c with
              | some idx => [mkRefWarning c i1 r1 idx]
              | none => []) : List RefWarning).filter (fun w => w.uuid == i1.uuid)).length =
              if strB i1.uuid <:+: c then 1 else 0 := by
          cases hf : firstIdxSub (strB i1.uuid) c with
          | none =>
            have : ¬ strB i1.uuid <:+: c := by
              rw [← firstIdxSub_isSome_iff (strB i1.uuid) c, hf]
              simp
            simp [this]
          | some idx =>
            have : strB i1.uuid <:+: c := by
              rw [← firstIdxSub_isSome_iff (strB i1.uuid) c, hf]
              rfl
            simp [this, mkRefWarning]
        rw [hhead, Nat.add_zero]
      · have hne : i1.uuid ≠ u := fun he => hnd1 (he ▸ hmt)
        have hhead :
            ((match firstIdxSub (strB i1.uuid) c with
              | some idx => [mkRefWarning c i1 r1 idx]
              | none => []) : List RefWarning).filter (fun w => w.uuid == u) = [] := by
          cases hf : firstIdxSub (strB i1.uuid) c with
          | none => rfl
          | some idx => simp [mkRefWarning, hne]
        rw [hhead, List.length_nil, ih hndt hmt, Nat.zero_add]

/-- C6 amended.  After producing a file's new content — which happens only
when at least one edit descriptor was found (see the counterexample for
the no-descriptor case) — the text is re-scanned for each renamable
entity's bare identifier; for `index.html` no warning is reported, for any
other file exactly one warning per entity whose identifier is found (and
none for the entities whose identifier is gone), and in either case the
content is still written and the run completes normally. -/
theorem c6_amended (isIndexHtml : Bool) (c : Str) (fp : FPath)
    (objs : List NotionObject) (u : String)
    (hmem : u ∈ uuidsOf objs) (hnd : (uuidsOf objs).Nodup) (newC : Str)
    (hrun : do_rename_refs_in_content c (prepare_rename_refs_in_content c fp objs) =
      RenameOutcome.ok newC) :
    rename_refs_in_one_file isIndexHtml c fp objs false =
      FileRun.finished (some newC)
        (if isIndexHtml then [] else validate_rename_refs_in_content newC objs) ∧
    ((validate_rename_refs_in_content newC objs).filter
        (fun w => w.uuid == u)).length = if strB u <:+: newC then 1 else 0 := by
  constructor
  · unfold rename_refs_in_one_file
    dsimp only
    rw [hrun]
    rfl
  · exact validate_count_mem newC u objs hnd hmem

theorem c6_amended_witness :
    rename_refs_in_one_file false (strB "n u u") exampleFilePath [c6Obj] false =
      FileRun.finished (some (strB "n u"))
        (validate_rename_refs_in_content (strB "n u") [c6Obj]) ∧
    ((validate_rename_refs_in_content (strB "n u") [c6Obj]).filter
        (fun w => w.uuid == "u")).length = 1 := by
  have h := c6_amended false (strB "n u u") exampleFilePath [c6Obj] "u"
    (by decide) (by decide) (strB "n u") (by decide)
  refine ⟨h.1, ?_⟩
  have h2 := h.2
  rw [if_pos (by decide)] at h2
  exact h2

/-- Helper for C9: in dry-run mode the per-file pipeline never yields a
written content. -/
theorem rename_one_test_written (i : Bool) (c : Str) (fp : FPath)
    (objs : List NotionObject) (w : Option Str) (ws : List RefWarning)
    (h : rename_refs_in_one_file i c fp objs true = FileRun.finished w ws) :
    w = none := by
  unfold rename_refs_in_one_file at h
  dsimp only at h
  cases hdr : do_rename_refs_in_content c (prepare_rename_refs_in_content c fp objs) with
  | noEdit => rw [hdr] at h; cases h; rfl
  | crashed => rw [hdr] at h; cases h
  | ok s => rw [hdr] at h; cases h; rfl

/-- Helper for C9: a dry run leaves the filesystem map untouched. -/
theorem content_stage_test_fs (objs : List NotionObject) :
    ∀ (files : List MFile) (fs fs' : Nat → Str) (ws : List RefWarning),
      content_stage objs true fs files = StageOut.ok fs' ws → fs' = fs := by
  intro files
  induction files with
  | nil =>
    intro fs fs' ws h
    rw [content_stage] at h
    cases h
    rfl
  | cons f rest ih =>
    intro fs fs' ws h
    rw [content_stage] at h
    dsimp only at h
    cases hone : rename_refs_in_one_file f.isIndexHtml (fs f.pid) f.path objs true with
    | crashed => rw [hone] at h; cases h
    | finished w ws0 =>
      rw [hone] at h
      have hw : w = none := rename_one_test_written _ _ _ _ _ _ hone
      subst hw
      dsimp only at h
      cases hrec : content_stage objs true fs rest with
      | crashed => rw [hrec] at h; cases h
      | ok fsF wsR =>
        rw [hrec] at h
        dsimp only at h
        injection h with hA hB
        exact hA ▸ ih fs fsF wsR hrec

/-- Helper for C9: prepending warnings commutes with `stageWarnings`. -/
theorem stageWarnings_prepend (ws : List RefWarning) (A : StageOut) :
    stageWarnings
      (match A with
        | StageOut.crashed => StageOut.crashed
        | StageOut.ok F W => StageOut.ok F (ws ++ W)) =
      (stageWarnings A).map (fun W => ws ++ W) := by
  cases A <;> rfl

/-- Helper for C9: a dry run and a live run over the same file list report
the same warnings (and crash in the same cases), as long as the listed
paths are distinct — each file is read before any later file writes it. -/
theorem content_stage_warns (objs : List NotionObject) :
    ∀ (files : List MFile) (fs g : Nat → Str),
      (∀ f ∈ files, g f.pid = fs f.pid) → (files.map MFile.pid).Nodup →
      stageWarnings (content_stage objs true fs files) =
        stageWarnings (content_stage objs false g files) := by
  intro files
  induction files with
  | nil => intro fs g _ _; rfl
  | cons f rest ih =>
    intro fs g hag hnd
    have hc : g f.pid = fs f.pid := hag f (List.mem_cons_self f rest)
    rw [List.map_cons, List.nodup_cons] at hnd
    obtain ⟨hp, hndr⟩ := hnd
    have hagr : ∀ f' ∈ rest, g f'.pid = fs f'.pid := fun f' hf' =>
      hag f' (List.mem_cons_of_mem f hf')
    rw [content_stage, content_stage]
    dsimp only
    rw [hc]
    cases hdr : do_rename_refs_in_content (fs f.pid)
        (prepare_rename_refs_in_content (fs f.pid) f.path objs) with
    | noEdit =>
      have h1 : rename_refs_in_one_file f.isIndexHtml (fs f.pid) f.path objs true =
          FileRun.finished none [] := by
        unfold rename_refs_in_one_file; dsimp only; rw [hdr]
      have h2 : rename_refs_in_one_file f.isIndexHtml (fs f.pid) f.path objs false =
          FileRun.finished none [] := by
        unfold rename_refs_in_one_file; dsimp only; rw [hdr]
      rw [h1, h2]
      dsimp only
      rw [stageWarnings_prepend, stageWarnings_prepend, ih fs g hagr hndr]
    | crashed =>
      have h1 : rename_refs_in_one_file f.isIndexHtml (fs f.pid) f.path objs true =
          FileRun.crashed := by
        unfold rename_refs_in_one_file; dsimp only; rw [hdr]
      have h2 : rename_refs_in_one_file f.isIndexHtml (fs f.pid) f.path objs false =
          FileRun.crashed := by
        unfold rename_refs_in_one_file; dsimp only; rw [hdr]
      rw [h1, h2]
    | ok newC =>
      have h1 : rename_refs_in_one_file f.isIndexHtml (fs f.pid) f.path objs true =
          FileRun.finished none
            (if f.isIndexHtml then []
             else validate_rename_refs_in_content newC objs) := by
        unfold rename_refs_in_one_file; dsimp only; rw [hdr]; rfl
      have h2 : rename_refs_in_one_file f.isIndexHtml (fs f.pid) f.path objs false =
          FileRun.finished (some newC)
            (if f.isIndexHtml then []
             else validate_rename_refs_in_content newC objs) := by
        unfold rename_refs_in_one_file; dsimp only; rw [hdr]; rfl
      rw [h1, h2]
      dsimp only
      have hagr' : ∀ f' ∈ rest,
          (fun p => if p = f.pid then newC else g p) f'.pid = fs f'.pid := by
        intro f' hf'
        have hne : f'.pid ≠ f.pid := fun he => hp (he ▸ List.mem_map_of_mem MFile.pid hf')
        simp only [if_neg hne]
        exact hagr f' hf'
      rw [stageWarnings_prepend, stageWarnings_prepend,
        ih fs (fun p => if p = f.pid then newC else g p) hagr' hndr]

/-- Helper for C9: dry-run suppresses every file-rename system call. -/
theorem rename_objects_files_test (objs : List NotionObject) :
    rename_objects_files objs true = [] := by
  unfold rename_objects_files
  generalize objs.filter NotionObject.is_page_or_dataset = l
  induction l with
  | nil => rfl
  | cons o t ih =>
    rw [List.flatMap_cons, ih]
    cases o with
    | page info refs => simp
    | database info db refs =>
      obtain ⟨csp, htp⟩ := db
      cases csp <;> cases htp <;> simp
    | otherText p => simp
    | otherBinary p => simp

/-- Helper for C9: dry-run suppresses every directory-rename system call. -/
theorem rename_directories_test (objs : List NotionObject) :
    rename_directories objs true = [] := by
  unfold rename_directories
  generalize dirRenameOrder objs = l
  induction l with
  | nil => rfl
  | cons o t ih => rw [List.flatMap_cons, ih]; simp

/-- C9.  Dry-run mode performs the full computation and reports exactly
the warnings of a live run over the same tree (pairwise-distinct file
paths), but leaves the filesystem map untouched and emits no file- or
directory-rename operation. -/
theorem c9_dry_run (objs : List NotionObject) (fs : Nat → Str) (files : List MFile)
    (hnd : (files.map MFile.pid).Nodup) :
    stageWarnings (content_stage objs true fs files) =
      stageWarnings (content_stage objs false fs files) ∧
    (∀ fs' ws, content_stage objs true fs files = StageOut.ok fs' ws → fs' = fs) ∧
    rename_objects_files objs true = [] ∧
    rename_directories objs true = [] :=
  ⟨content_stage_warns objs files fs fs (fun _ _ => rfl) hnd,
   fun fs' ws h => content_stage_test_fs objs files fs fs' ws h,
   rename_objects_files_test objs,
   rename_directories_test objs⟩

theorem c9_witness :
    stageWarnings
        (content_stage [c6Obj] true (fun _ => strB "n u u") [⟨0, false, exampleFilePath⟩]) =
      stageWarnings
        (content_stage [c6Obj] false (fun _ => strB "n u u") [⟨0, false, exampleFilePath⟩]) ∧
    rename_objects_files [c6Obj] true = [] :=
  ⟨(c9_dry_run [c6Obj] (fun _ => strB "n u u") [⟨0, false, exampleFilePath⟩] (by decide)).1,
   (c9_dry_run [c6Obj] (fun _ => strB "n u u") [⟨0, false, exampleFilePath⟩] (by decide)).2.2.1⟩

/-- Helper for C4: `replaceGo` on the empty list. -/
theorem replaceGo_nil (old new : Str) : ∀ fuel, replaceGo old new fuel [] = [] := by
  intro fuel; cases fuel <;> rfl

/-- Helper for C4: any sufficient fuel computes the same replacement. -/
theorem replaceGo_eq_of_le (old new : Str) :
    ∀ (f₁ : Nat) (s : Str) (f₂ : Nat), s.length ≤ f₁ → s.length ≤ f₂ →
      replaceGo old new f₁ s = replaceGo old new f₂ s := by
  intro f₁
  induction f₁ with
  | zero =>
    intro s f₂ h1 _
    have hs : s = [] := List.length_eq_zero.mp (Nat.le_zero.mp h1)
    subst hs
    rw [replaceGo_nil, replaceGo_nil]
  | succ n ih =>
    intro s f₂ h1 h2
    cases s with
    | nil => rw [replaceGo_nil, replaceGo_nil]
    | cons c rest =>
      cases f₂ with
      | zero => exact absurd h2 (by simp)
      | succ m =>
        rw [replaceGo, replaceGo]
        by_cases hp : old ≠ [] ∧ old <+: (c :: rest)
        · rw [if_pos hp, if_pos hp]
          congr 1
          have hol : 0 < old.length := List.length_pos.mpr hp.1
          apply ih
          · rw [List.length_drop]
            simp only [List.length_cons] at h1 ⊢
            omega
          · rw [List.length_drop]
            simp only [List.length_cons] at h2 ⊢
            omega
        · rw [if_neg hp, if_neg hp]
          congr 1
          apply ih
          · simp only [List.length_cons] at h1; omega
          · simp only [List.length_cons] at h2; omega

/-- Helper for C4: a pass whose pattern does not occur leaves the text
unchanged. -/
theorem replaceGo_no_occurrence (old new : Str) :
    ∀ (fuel : Nat) (s : Str), s.length ≤ fuel → ¬ old <:+: s →
      replaceGo old new fuel s = s := by
  intro fuel
  induction fuel with
  | zero =>
    intro s h1 _
    have hs : s = [] := List.length_eq_zero.mp (Nat.le_zero.mp h1)
    subst hs
    rfl
  | succ n ih =>
    intro s h1 hni
    cases s with
    | nil => rfl
    | cons c rest =>
      rw [replaceGo]
      have hnp : ¬ (old ≠ [] ∧ old <+: (c :: rest)) := by
        rintro ⟨_, hpre⟩
        exact hni hpre.isInfix
      rw [if_neg hnp]
      congr 1
      apply ih
      · simp only [List.length_cons] at h1; omega
      · intro hi
        exact hni (List.infix_cons_iff.mpr (Or.inr hi))

/-- Helper for C4 (`str::replace`, non-occurrence case). -/
theorem replaceL_no_occurrence (old new s : Str) (h : ¬ old <:+: s) :
    replaceL old new s = s :=
  replaceGo_no_occurrence old new s.length s (Nat.le_refl _) h

/-- Helper for C4 (`str::replace`, leftmost-occurrence case): if no
occurrence of `old` starts inside `a` (also not straddling into the
occurrence), the pass copies `a`, rewrites that occurrence, and continues
after it. -/
theorem replaceL_append_skip (old new : Str) (hne : old ≠ []) :
    ∀ (a b : Str), ¬ old <:+: (a ++ old.take (old.length - 1)) →
      replaceL old new (a ++ (old ++ b)) = a ++ (new ++ replaceL old new b) := by
  suffices hgo : ∀ (a : Str) (fuel : Nat) (b : Str), (a ++ (old ++ b)).length ≤ fuel →
      ¬ old <:+: (a ++ old.take (old.length - 1)) →
      replaceGo old new fuel (a ++ (old ++ b)) = a ++ (new ++ replaceL old new b) by
    intro a b h
    exact hgo a (a ++ (old ++ b)).length b (Nat.le_refl _) h
  intro a
  induction a with
  | nil =>
    intro fuel b hf _
    simp only [List.nil_append] at hf ⊢
    have hol : 0 < old.length := List.length_pos.mpr hne
    cases fuel with
    | zero =>
      exfalso
      simp only [List.length_append] at hf
      omega
    | succ n =>
      cases ho : old with
      | nil => exact absurd ho hne
      | cons oc ot =>
        rw [List.cons_append, replaceGo]
        have hcond : (oc :: ot) ≠ [] ∧ (oc :: ot) <+: (oc :: (ot ++ b)) := by
          refine ⟨by simp, ?_⟩
          rw [← List.cons_append]
          exact List.prefix_append _ _
        rw [if_pos hcond]
        congr 1
        have hdrop : (oc :: (ot ++ b)).drop (oc :: ot).length = b := by
          rw [← List.cons_append]
          exact List.drop_left _ _
        rw [hdrop, replaceL]
        apply replaceGo_eq_of_le
        · simp only [List.cons_append, List.length_cons, List.length_append] at hf ⊢
          omega
        · exact Nat.le_refl _
  | cons x a' iha =>
    intro fuel b hf h
    have hol : 0 < old.length := List.length_pos.mpr hne
    cases fuel with
    | zero =>
      exfalso
      simp only [List.cons_append, List.length_cons] at hf
      omega
    | succ n =>
      rw [List.cons_append, replaceGo]
      have hcond : ¬ (old ≠ [] ∧ old <+: (x :: (a' ++ (old ++ b)))) := by
        rintro ⟨_, hpre⟩
        apply h
        have hlen : old.length ≤ (x :: a').length + (old.length - 1) := by
          simp only [List.length_cons]
          omega
        have h2 : old <+:
            (x :: (a' ++ (old ++ b))).take ((x :: a').length + (old.length - 1)) :=
          List.prefix_take_iff.mpr ⟨hpre, hlen⟩
        rw [show (x :: (a' ++ (old ++ b))) = (x :: a') ++ (old ++ b) by
          rw [List.cons_append]] at h2
        rw [List.take_append] at h2
        rw [List.take_append_of_le_length (by omega)] at h2
        exact h2.isInfix
      rw [if_neg hcond]
      have h' : ¬ old <:+: (a' ++ old.take (old.length - 1)) := by
        intro hi
        apply h
        rw [List.cons_append]
        exact List.infix_cons_iff.mpr (Or.inr hi)
      rw [iha n b (by
        simp only [List.cons_append, List.length_cons] at hf
        omega) h']
      rw [List.cons_append]

/-- Helper for C4: a character encodes to at least one byte. -/
theorem utf8Bytes_ne_nil (c : Char) : utf8Bytes c ≠ [] := by
  unfold utf8Bytes
  dsimp only
  split
  · simp
  · split
    · simp
    · split <;> simp

/-- Helper for C4: the byte string of a non-empty string is non-empty. -/
theorem strB_ne_nil (s : String) (h : s.data ≠ []) : strB s ≠ [] := by
  unfold strB
  cases hd : s.data with
  | nil => exact absurd hd h
  | cons c t =>
    rw [List.map_cons, List.flatten_cons]
    intro heq
    exact utf8Bytes_ne_nil c (List.append_eq_nil.mp heq).1

/-- Helper for C4: a replacement pass with non-empty replacement text
keeps a non-empty text non-empty. -/
theorem replaceGo_ne_nil (old new : Str) (hnew : new ≠ []) :
    ∀ (fuel : Nat) (s : Str), s ≠ [] → replaceGo old new fuel s ≠ [] := by
  intro fuel
  induction fuel with
  | zero =>
    intro s hs
    cases s with
    | nil => exact absurd rfl hs
    | cons c rest => simp [replaceGo]
  | succ n ih =>
    intro s hs
    cases s with
    | nil => exact absurd rfl hs
    | cons c rest =>
      rw [replaceGo]
      by_cases hp : old ≠ [] ∧ old <+: (c :: rest)
      · rw [if_pos hp]
        intro heq
        exact hnew (List.append_eq_nil.mp heq).1
      · rw [if_neg hp]
        simp

/-- Helper for C4 (`replaceL` version). -/
theorem replaceL_ne_nil (old new s : Str) (hnew : new ≠ []) (hs : s ≠ []) :
    replaceL old new s ≠ [] :=
  replaceGo_ne_nil old new hnew s.length s hs

/-- Helper for C4: URL-encoding keeps a non-empty byte string non-empty. -/
theorem urlencode_ne_nil (s : Str) (hs : s ≠ []) : urlencode s ≠ [] := by
  unfold urlencode
  cases hd : s with
  | nil => exact absurd hd hs
  | cons b t =>
    rw [List.map_cons, List.flatten_cons]
    intro heq
    have h1 := (List.append_eq_nil.mp heq).1
    by_cases hb : urlUnreserved b
    · rw [if_pos hb] at h1; exact List.noConfusion h1
    · rw [if_neg hb] at h1; exact List.noConfusion h1

/-- Helper for C4: `encode_uri` keeps a non-empty byte string non-empty. -/
theorem encode_uri_ne_nil (s : Str) (hs : s ≠ []) : encode_uri s ≠ [] := by
  unfold encode_uri
  have haux : ∀ (l : List Char) (acc : Str), acc ≠ [] →
      l.foldl (fun acc c => replaceL (urlencode (strB (String.mk [c])))
        (strB (String.mk [c])) acc) acc ≠ [] := by
    intro l
    induction l with
    | nil => intro acc h; exact h
    | cons c t ih =>
      intro acc h
      rw [List.foldl_cons]
      exact ih _ (replaceL_ne_nil _ _ _ (strB_ne_nil _ (by simp)) h)
  exact haux charsKeptByUriEncoding (urlencode s) (urlencode_ne_nil s hs)

/-- Helper for C4: every byte escapes to a non-empty string. -/
theorem htmlByteEnc_ne_nil (b : Nat) : htmlByteEnc b ≠ [] := by
  unfold htmlByteEnc
  repeat' split
  all_goals first | decide | simp

/-- Helper for C4: html escaping keeps a non-empty byte string non-empty. -/
theorem htmlEncodeSafe_ne_nil (s : Str) (hs : s ≠ []) : htmlEncodeSafe s ≠ [] := by
  unfold htmlEncodeSafe
  cases hd : s with
  | nil => exact absurd hd hs
  | cons b t =>
    rw [List.map_cons, List.flatten_cons]
    intro heq
    exact htmlByteEnc_ne_nil b (List.append_eq_nil.mp heq).1

/-- C4 amended.  Token replacement covers exactly the four encoded
(old-form, new-form) pairs of the old identity (`replacementPairs`), each
pass rewriting the left-to-right occurrences of its form; for content
containing the four old forms once each, in order, with no stray
occurrence elsewhere (also none straddling the pieces and none re-created
by the substitution — see the counterexample), after rewrite each matched
position holds the corresponding new-form string and none of the four old
forms remain. -/
theorem c4_amended (name uuid new_name : String)
    (s0 s1 s2 s3 s4 R U H HU N NU NH NHU : Str)
    (hRdef : R = strB (name ++ " " ++ uuid)) (hNdef : N = strB new_name)
    (hUdef : U = encode_uri R) (hNUdef : NU = encode_uri N)
    (hHdef : H = htmlEncodeSafe R) (hNHdef : NH = htmlEncodeSafe N)
    (hHUdef : HU = encode_uri H) (hNHUdef : NHU = encode_uri NH)
    (hR1 : ¬ R <:+: s0 ++ R.take (R.length - 1))
    (hR2 : ¬ R <:+: s1 ++ U ++ s2 ++ H ++ s3 ++ HU ++ s4)
    (hU1 : ¬ U <:+: s0 ++ N ++ s1 ++ U.take (U.length - 1))
    (hU2 : ¬ U <:+: s2 ++ H ++ s3 ++ HU ++ s4)
    (hH1 : ¬ H <:+: s0 ++ N ++ s1 ++ NU ++ s2 ++ H.take (H.length - 1))
    (hH2 : ¬ H <:+: s3 ++ HU ++ s4)
    (hHU1 : ¬ HU <:+: s0 ++ N ++ s1 ++ NU ++ s2 ++ NH ++ s3 ++ HU.take (HU.length - 1))
    (hHU2 : ¬ HU <:+: s4)
    (hfin : ∀ p ∈ [R, U, H, HU],
      ¬ p <:+: s0 ++ N ++ s1 ++ NU ++ s2 ++ NH ++ s3 ++ NHU ++ s4) :
    rename_refs_tokens name uuid new_name
        (s0 ++ R ++ s1 ++ U ++ s2 ++ H ++ s3 ++ HU ++ s4) =
      s0 ++ N ++ s1 ++ NU ++ s2 ++ NH ++ s3 ++ NHU ++ s4 ∧
    ∀ p ∈ [R, U, H, HU],
      ¬ p <:+: rename_refs_tokens name uuid new_name
        (s0 ++ R ++ s1 ++ U ++ s2 ++ H ++ s3 ++ HU ++ s4) := by
  have hRne : R ≠ [] := by
    rw [hRdef]
    exact strB_ne_nil _ (by simp [String.data_append])
  have hUne : U ≠ [] := by
    rw [hUdef]
    exact encode_uri_ne_nil _ hRne
  have hHne : H ≠ [] := by
    rw [hHdef]
    exact htmlEncodeSafe_ne_nil _ hRne
  have hHUne : HU ≠ [] := by
    rw [hHUdef]
    exact encode_uri_ne_nil _ hHne
  have hunfold : ∀ c : Str, rename_refs_tokens name uuid new_name c =
      replaceL HU NHU (replaceL H NH (replaceL U NU (replaceL R N c))) := by
    intro c
    unfold rename_refs_tokens replacementPairs
    simp only [List.foldl_cons, List.foldl_nil]
    rw [← hRdef, ← hNdef, ← hUdef, ← hNUdef, ← hHdef, ← hNHdef, ← hHUdef, ← hNHUdef]
  have e1 : replaceL R N
      (s0 ++ (R ++ (s1 ++ (U ++ (s2 ++ (H ++ (s3 ++ (HU ++ s4)))))))) =
      s0 ++ (N ++ (s1 ++ (U ++ (s2 ++ (H ++ (s3 ++ (HU ++ s4))))))) := by
    have h := replaceL_append_skip R N hRne s0
      (s1 ++ (U ++ (s2 ++ (H ++ (s3 ++ (HU ++ s4)))))) hR1
    rw [replaceL_no_occurrence R N (s1 ++ (U ++ (s2 ++ (H ++ (s3 ++ (HU ++ s4))))))
      (by simpa only [List.append_assoc] using hR2)] at h
    exact h
  have e2 : replaceL U NU
      (s0 ++ (N ++ (s1 ++ (U ++ (s2 ++ (H ++ (s3 ++ (HU ++ s4)))))))) =
      s0 ++ (N ++ (s1 ++ (NU ++ (s2 ++ (H ++ (s3 ++ (HU ++ s4))))))) := by
    have h := replaceL_append_skip U NU hUne (s0 ++ N ++ s1)
      (s2 ++ (H ++ (s3 ++ (HU ++ s4)))) hU1
    rw [replaceL_no_occurrence U NU (s2 ++ (H ++ (s3 ++ (HU ++ s4))))
      (by simpa only [List.append_assoc] using hU2)] at h
    simpa only [List.append_assoc] using h
  have e3 : replaceL H NH
      (s0 ++ (N ++ (s1 ++ (NU ++ (s2 ++ (H ++ (s3 ++ (HU ++ s4)))))))) =
      s0 ++ (N ++ (s1 ++ (NU ++ (s2 ++ (NH ++ (s3 ++ (HU ++ s4))))))) := by
    have h := replaceL_append_skip H NH hHne (s0 ++ N ++ s1 ++ NU ++ s2)
      (s3 ++ (HU ++ s4)) hH1
    rw [replaceL_no_occurrence H NH (s3 ++ (HU ++ s4))
      (by simpa only [List.append_assoc] using hH2)] at h
    simpa only [List.append_assoc] using h
  have e4 : replaceL HU NHU
      (s0 ++ (N ++ (s1 ++ (NU ++ (s2 ++ (NH ++ (s3 ++ (HU ++ s4)))))))) =
      s0 ++ (N ++ (s1 ++ (NU ++ (s2 ++ (NH ++ (s3 ++ (NHU ++ s4))))))) := by
    have h := replaceL_append_skip HU NHU hHUne (s0 ++ N ++ s1 ++ NU ++ s2 ++ NH ++ s3)
      s4 hHU1
    rw [replaceL_no_occurrence HU NHU s4 hHU2] at h
    simpa only [List.append_assoc] using h
  have heq : rename_refs_tokens name uuid new_name
      (s0 ++ R ++ s1 ++ U ++ s2 ++ H ++ s3 ++ HU ++ s4) =
      s0 ++ N ++ s1 ++ NU ++ s2 ++ NH ++ s3 ++ NHU ++ s4 := by
    rw [hunfold]
    simp only [List.append_assoc]
    rw [e1, e2, e3, e4]
  refine ⟨heq, ?_⟩
  intro p hp
  rw [heq]
  exact hfin p hp

theorem c4_amended_witness :
    rename_refs_tokens "a&b" "u" "a&b 1"
        (strB "a&b u a&b%20u a&amp;b u a&amp;b%20u") =
      strB "a&b 1 a&b%201 a&amp;b 1 a&amp;b%201" := by
  have h := (c4_amended "a&b" "u" "a&b 1"
      [] (strB " ") (strB " ") (strB " ") []
      (strB "a&b u") (strB "a&b%20u") (strB "a&amp;b u") (strB "a&amp;b%20u")
      (strB "a&b 1") (strB "a&b%201") (strB "a&amp;b 1") (strB "a&amp;b%201")
      (by decide) (by decide) (by decide) (by decide)
      (by decide) (by decide) (by decide) (by decide)
      (by decide) (by decide) (by decide) (by decide)
      (by decide) (by decide) (by decide) (by decide)
      (by decide)).1
  have hc : ([] : Str) ++ strB "a&b u" ++ strB " " ++ strB "a&b%20u" ++ strB " " ++
      strB "a&amp;b u" ++ strB " " ++ strB "a&amp;b%20u" ++ [] =
      strB "a&b u a&b%20u a&amp;b u a&amp;b%20u" := by decide
  have hf : ([] : Str) ++ strB "a&b 1" ++ strB " " ++ strB "a&b%201" ++ strB " " ++
      strB "a&amp;b 1" ++ strB " " ++ strB "a&amp;b%201" ++ [] =
      strB "a&b 1 a&b%201 a&amp;b 1 a&amp;b%201" := by decide
  rw [hc, hf] at h
  exact h

/-- C10.  End to end on `c10Content` (a parenthesised notion link whose
span contains two disjoint token matches of `"A u"`): the locator's
descriptors all start on char boundaries with start < stop, yet after the
removal loop the kept set still overlaps (link span `[1,18)` plus token
`[15,18)`), and the splice reconstruction panics slicing
`[18..15]` — the claimed "never panics" safety fails. -/
theorem c10_splice_panics :
    do_rename_refs_in_content c10Content
        (prepare_rename_refs_in_content c10Content exampleFilePath [c10Obj]) =
      RenameOutcome.crashed ∧
    (prepare_rename_refs_in_content c10Content exampleFilePath [c10Obj]).all
        (fun d => decide (d.start < d.stop) && isCB c10Content d.start &&
          isCB c10Content d.stop) = true := by
  constructor
  · decide
  · decide
